import Mathlib

/-! Verification of scripts/generate-apns-iconset.py: a stdlib-only generator of
solid-color PNG icons for Safari Web Push packages. Bytes are modelled as natural
numbers; a fallible operation (Python struct.pack raising struct.error on an
out-of-range value) returns Option, none standing for the raised error. The two
external collaborators named by the design document -- the generic lossless
compressor (zlib.compress) and the conformant reader of the produced format --
are modelled from the spec, with executable definitions, and each such
definition says so in its doc comment. -/

namespace PngGen

/-- Big-endian byte encoding of a natural number on k bytes (value taken modulo
256^k; the range checks of struct.pack are performed by the callers, as in the
source). -/
def natToBytesBE : Nat → Nat → List Nat
  | 0, _ => []
  | k+1, n => natToBytesBE k (n / 256) ++ [n % 256]

/-- Big-endian interpretation of a byte list as a natural number. -/
def bytesToNatBE (l : List Nat) : Nat := l.foldl (fun a b => a * 256 + b) 0

/-- RGBA brand color constant COLOR = (0x3B, 0x82, 0xF6, 0xFF). -/
def COLOR : List Nat := [0x3B, 0x82, 0xF6, 0xFF]

/-- Fixed output directory ICONSET_DIR. -/
def ICONSET_DIR : String := "client/push-package/icon.iconset"

/-- The ordered name-to-size table SIZES; Python dicts preserve insertion order. -/
def SIZES : List (String × Nat) :=
  [("icon_16x16", 16), ("icon_16x16@2x", 32), ("icon_32x32", 32),
   ("icon_32x32@2x", 64), ("icon_128x128", 128), ("icon_256x256", 256)]

/-- One shift-and-conditional-xor step of the reflected CRC-32 polynomial
0xEDB88320. -/
def crc32_step (c : Nat) : Nat := if c % 2 = 1 then (c / 2) ^^^ 0xEDB88320 else c / 2

/-- Fold one byte into a CRC-32 accumulator: xor the byte in, then eight
polynomial steps (the per-byte update of zlib.crc32). -/
def crc32_update (c b : Nat) : Nat := crc32_step^[8] (c ^^^ b)

/-- zlib.crc32 over a byte list: initial value 0xFFFFFFFF, per-byte updates,
final complement. -/
def crc32 (l : List Nat) : Nat := (l.foldl crc32_update 0xFFFFFFFF) ^^^ 0xFFFFFFFF

/-- Adler-32 checksum, the integrity trailer of the zlib container. -/
def adler32 (l : List Nat) : Nat :=
  let p := l.foldl
    (fun (ab : Nat × Nat) b => ((ab.1 + b) % 65521, (ab.2 + (ab.1 + b) % 65521) % 65521))
    (1, 0)
  p.2 * 65536 + p.1

/-- Modelled from the spec: zlib.compress(raw, level=9). The design document
treats the compressor as an external collaborator (a generic deflate-style
lossless compressor used at maximum compression effort); its exact bit stream is
outside this repository. The model keeps the zlib container shape -- the 2-byte
header 0x78 0xDA that level 9 emits and the big-endian Adler-32 trailer -- and
stores the payload behind an explicit 16-byte big-endian length, so that the
encoding is lossless (zlib_decompress below is its exact inverse) and its output
length grows with the input, the two properties the claims rely on. -/
def zlib_compress (l : List Nat) : List Nat :=
  0x78 :: 0xDA :: (natToBytesBE 16 l.length ++ l ++ natToBytesBE 4 (adler32 l))

/-- Modelled from the spec: the inflate side of the external compressor; the
exact inverse of zlib_compress on inputs shorter than 256^16 bytes. -/
def zlib_decompress (d : List Nat) : Option (List Nat) :=
  match d with
  | 0x78 :: 0xDA :: rest =>
    let L := bytesToNatBE (rest.take 16)
    let body := (rest.drop 16).take L
    let ad := (rest.drop 16).drop L
    if (rest.drop 16).length = L + 4 ∧ ad = natToBytesBE 4 (adler32 body) then some body
    else none
  | _ => none

/-- The byte layout produced by _chunk: 4-byte big-endian payload length, the
4-byte tag, the payload, and the big-endian CRC-32 of tag ++ data, masked to 32
bits as the source's and-mask with 0xFFFFFFFF does. -/
def chunkBytes (tag data : List Nat) : List Nat :=
  natToBytesBE 4 data.length ++ tag ++ data ++
    natToBytesBE 4 (crc32 (tag ++ data) % 4294967296)

/-- Python _chunk(tag, data): struct.pack of the length raises struct.error when
len(data) does not fit in 4 bytes; otherwise the chunk bytes are produced. -/
def chunk (tag data : List Nat) : Option (List Nat) :=
  if data.length < 4294967296 then some (chunkBytes tag data) else none

/-- ASCII tag of the header chunk. -/
def tagIHDR : List Nat := [0x49, 0x48, 0x44, 0x52]

/-- ASCII tag of the pixel-data chunk. -/
def tagIDAT : List Nat := [0x49, 0x44, 0x41, 0x54]

/-- ASCII tag of the terminator chunk. -/
def tagIEND : List Nat := [0x49, 0x45, 0x4E, 0x44]

/-- The 8-byte PNG signature 0x89 P N G CR LF 0x1A LF. -/
def pngSignature : List Nat := [0x89, 0x50, 0x4E, 0x47, 0x0D, 0x0A, 0x1A, 0x0A]

/-- Payload packed by struct.pack of the IHDR fields: width and height (both
equal to size) as 4-byte big-endian integers, then bit depth 8, color type 6,
compression 0, filter 0, interlace 0. The range check of struct.pack (the value
must be below 2^32) is performed by encode_png. -/
def ihdrPayload (s : Nat) : List Nat :=
  natToBytesBE 4 s ++ natToBytesBE 4 s ++ [8, 6, 0, 0, 0]

/-- The raw scanline stream: for each of size rows, a single 0x00 filter byte
followed by size copies of the 4-byte COLOR row pixel. -/
def rawStream (s : Nat) : List Nat :=
  List.flatten (List.replicate s (0x00 :: List.flatten (List.replicate s COLOR)))

/-- Python _encode_png(size); none models a raised struct.error. Packing the IHDR
fields raises unless 0 <= size < 2^32 (so a negative size raises there); the
three chunks are then assembled in order IHDR, IDAT, IEND, each able to raise if
its payload length overflows the 4-byte length field. -/
def encode_png (size : Int) : Option (List Nat) :=
  if 0 ≤ size ∧ size < 4294967296 then
    let s := size.toNat
    (chunk tagIHDR (ihdrPayload s)).bind fun c1 =>
      (chunk tagIDAT (zlib_compress (rawStream s))).bind fun c2 =>
        (chunk tagIEND []).bind fun c3 =>
          some (pngSignature ++ c1 ++ c2 ++ c3)
  else none

/-- Modelled from the spec (design note 9): the raw stream with the configured
color carried as an explicit parameter instead of the ambient COLOR constant. -/
def rawStreamC (color : List Nat) (s : Nat) : List Nat :=
  List.flatten (List.replicate s (0x00 :: List.flatten (List.replicate s color)))

/-- Modelled from the spec (design note 9): the encoder with the configured
color passed explicitly; encode_png is this applied to COLOR. -/
def encode_core (color : List Nat) (size : Int) : Option (List Nat) :=
  if 0 ≤ size ∧ size < 4294967296 then
    let s := size.toNat
    (chunk tagIHDR (ihdrPayload s)).bind fun c1 =>
      (chunk tagIDAT (zlib_compress (rawStreamC color s))).bind fun c2 =>
        (chunk tagIEND []).bind fun c3 =>
          some (pngSignature ++ c1 ++ c2 ++ c3)
  else none

/-- Output path of one logical icon name: ICONSET_DIR joined with name.png. -/
def iconsetPath (name : String) : String := ICONSET_DIR ++ "/" ++ name ++ ".png"

/-- Console line printed after one file is written. -/
def logLine (name : String) (size : Nat) : String :=
  "Wrote " ++ iconsetPath name ++ " (" ++ toString size ++ "x" ++ toString size ++ ")"

/-- The effect trace of main's loop over a name-to-size table: for each entry in
order, encode the PNG, record the (path, bytes) file write and the console
line. A raised error (none) aborts the run. -/
def runIcons : List (String × Nat) → Option (List ((String × List Nat) × String))
  | [] => some []
  | (name, size) :: rest =>
    (encode_png (size : Int)).bind fun bs =>
      (runIcons rest).bind fun tl =>
        some (((iconsetPath name, bs), logLine name size) :: tl)

/-- Modelled from the spec: one step of a conformant chunk reader -- a 4-byte
big-endian payload length, the 4-byte tag, the payload, and a 4-byte big-endian
CRC-32 over tag ++ payload which the reader verifies; returns ((tag, payload),
remaining bytes). -/
def readChunk (l : List Nat) : Option ((List Nat × List Nat) × List Nat) :=
  let n := bytesToNatBE (l.take 4)
  if 12 + n ≤ l.length then
    let tag := (l.drop 4).take 4
    let payload := (l.drop 8).take n
    let crcB := (l.drop (8 + n)).take 4
    if bytesToNatBE crcB = crc32 (tag ++ payload) % 4294967296 then
      some ((tag, payload), l.drop (12 + n))
    else none
  else none

/-- Modelled from the spec: a conformant reader's validation of the header
payload for the files this generator produces -- 13 bytes, nonzero width and
height below 2^31 (zero is an invalid dimension in the format), bit depth 8,
color type 6 (truecolor with alpha), compression, filter and interlace 0. -/
def parseIHDR (p : List Nat) : Option (Nat × Nat) :=
  if p.length = 13 ∧ p.drop 8 = [8, 6, 0, 0, 0] then
    let w := bytesToNatBE (p.take 4)
    let h := bytesToNatBE ((p.drop 4).take 4)
    if 0 < w ∧ w < 2147483648 ∧ 0 < h ∧ h < 2147483648 then some (w, h) else none
  else none

/-- Modelled from the spec: the reader collects consecutive IDAT payloads until
the empty IEND chunk, which must end the stream; fuel bounds the number of
chunks read. -/
def readIDATs : Nat → List Nat → List Nat → Option (List Nat)
  | 0, _, _ => none
  | fuel+1, l, acc =>
    (readChunk l).bind fun c =>
      if c.1.1 = tagIEND then
        if c.1.2 = ([] : List Nat) ∧ c.2 = ([] : List Nat) then some acc else none
      else if c.1.1 = tagIDAT then readIDATs fuel c.2 (acc ++ c.1.2)
      else none

/-- Modelled from the spec: scanline defiltering for filter type 0 (the only
filter this generator emits); each of h rows is one filter byte, which must be
0, followed by 4*w pixel bytes. -/
def defilterRows (w : Nat) : Nat → List Nat → Option (List Nat)
  | 0, l => if l = [] then some [] else none
  | h+1, l =>
    match l with
    | 0 :: rest =>
      if 4 * w ≤ rest.length then
        (defilterRows w h (rest.drop (4 * w))).bind fun tl =>
          some (rest.take (4 * w) ++ tl)
      else none
    | _ => none

/-- Modelled from the spec: a conformant reader of the produced files. It checks
the 8-byte signature, requires a valid IHDR chunk first, verifies every chunk's
CRC, inflates the concatenated IDAT payloads, defilters the scanlines and
yields (width, height, row-major RGBA bytes). -/
def decode_png (bytes : List Nat) : Option (Nat × Nat × List Nat) :=
  if bytes.take 8 = pngSignature then
    (readChunk (bytes.drop 8)).bind fun c =>
      if c.1.1 = tagIHDR then
        (parseIHDR c.1.2).bind fun wh =>
          (readIDATs (c.2.length + 1) c.2 []).bind fun idat =>
            (zlib_decompress idat).bind fun raw =>
              (defilterRows wh.1 wh.2 raw).bind fun pix =>
                some (wh.1, wh.2, pix)
      else none
  else none

/-- Modelled from the spec: pixel (x, y) of a decoded width-w row-major RGBA
byte stream. -/
def pixelAt (pix : List Nat) (w x y : Nat) : List Nat :=
  (pix.drop (4 * (y * w + x))).take 4

/-- The byte sequence _encode_png(size) returns whenever it does not raise:
signature, then the IHDR, IDAT and IEND chunks. -/
def encodedBytes (s : Nat) : List Nat :=
  pngSignature ++ chunkBytes tagIHDR (ihdrPayload s) ++
    chunkBytes tagIDAT (zlib_compress (rawStream s)) ++ chunkBytes tagIEND []

theorem length_natToBytesBE (k n : Nat) : (natToBytesBE k n).length = k := by
  induction k generalizing n with
  | zero => rfl
  | succ k ih => simp [natToBytesBE, ih]

theorem bytesToNatBE_snoc (xs : List Nat) (b : Nat) :
    bytesToNatBE (xs ++ [b]) = bytesToNatBE xs * 256 + b := by
  simp [bytesToNatBE, List.foldl_append]

theorem bytesToNatBE_natToBytesBE (k n : Nat) :
    bytesToNatBE (natToBytesBE k n) = n % 256 ^ k := by
  induction k generalizing n with
  | zero => simp [natToBytesBE, bytesToNatBE, Nat.mod_one]
  | succ k ih =>
    rw [natToBytesBE, bytesToNatBE_snoc, ih]
    have h : (256 : Nat) ^ (k + 1) = 256 * 256 ^ k := by ring
    rw [h, Nat.mod_mul]
    ring

theorem bytesToNatBE_natToBytesBE_of_lt {k n : Nat} (h : n < 256 ^ k) :
    bytesToNatBE (natToBytesBE k n) = n := by
  rw [bytesToNatBE_natToBytesBE]
  exact Nat.mod_eq_of_lt h

theorem length_flatten_replicate (n : Nat) (L : List Nat) :
    (List.flatten (List.replicate n L)).length = n * L.length := by
  induction n with
  | zero => simp
  | succ n ih =>
    rw [List.replicate_succ, List.flatten_cons, List.length_append, ih]
    ring

theorem length_rawStream (s : Nat) : (rawStream s).length = s * (1 + 4 * s) := by
  rw [rawStream, length_flatten_replicate]
  simp only [List.length_cons, length_flatten_replicate]
  have hc : COLOR.length = 4 := rfl
  rw [hc]
  ring

theorem length_zlib_compress (l : List Nat) :
    (zlib_compress l).length = l.length + 22 := by
  simp [zlib_compress, length_natToBytesBE]
  omega

theorem length_chunkBytes (tag data : List Nat) (ht : tag.length = 4) :
    (chunkBytes tag data).length = data.length + 12 := by
  simp [chunkBytes, length_natToBytesBE, ht]
  omega

theorem length_ihdrPayload (s : Nat) : (ihdrPayload s).length = 13 := by
  simp [ihdrPayload, length_natToBytesBE]

theorem readChunk_chunkBytes (tag data rest : List Nat) (ht : tag.length = 4)
    (hd : data.length < 4294967296) :
    readChunk (chunkBytes tag data ++ rest) = some ((tag, data), rest) := by
  have hd' : data.length < 256 ^ 4 := by
    calc data.length < 4294967296 := hd
    _ = 256 ^ 4 := by norm_num
  have hb4l : (natToBytesBE 4 data.length).length = 4 := length_natToBytesBE _ _
  have hshape : chunkBytes tag data ++ rest =
      natToBytesBE 4 data.length ++
        (tag ++ (data ++ (natToBytesBE 4 (crc32 (tag ++ data) % 4294967296) ++ rest))) := by
    simp [chunkBytes]
  rw [hshape]
  set l := natToBytesBE 4 data.length ++
      (tag ++ (data ++ (natToBytesBE 4 (crc32 (tag ++ data) % 4294967296) ++ rest))) with hl
  have hn : bytesToNatBE (l.take 4) = data.length := by
    rw [hl, List.take_left' hb4l]
    exact bytesToNatBE_natToBytesBE_of_lt hd'
  have hdrop4 : l.drop 4 =
      tag ++ (data ++ (natToBytesBE 4 (crc32 (tag ++ data) % 4294967296) ++ rest)) :=
    List.drop_left' hb4l
  have htag : (l.drop 4).take 4 = tag := by
    rw [hdrop4]; exact List.take_left' ht
  have hdrop8 : l.drop 8 =
      data ++ (natToBytesBE 4 (crc32 (tag ++ data) % 4294967296) ++ rest) := by
    have h48 : l.drop 8 = (l.drop 4).drop 4 := by rw [List.drop_drop]
    rw [h48, hdrop4]; exact List.drop_left' ht
  have hpay : (l.drop 8).take data.length = data := by
    rw [hdrop8]; exact List.take_left' rfl
  have hdrop8n : l.drop (8 + data.length) =
      natToBytesBE 4 (crc32 (tag ++ data) % 4294967296) ++ rest := by
    have h8n : l.drop (8 + data.length) = (l.drop 8).drop data.length := by
      rw [List.drop_drop]
    rw [h8n, hdrop8]; exact List.drop_left' rfl
  have hcrcv : bytesToNatBE ((l.drop (8 + data.length)).take 4) =
      crc32 (tag ++ data) % 4294967296 := by
    rw [hdrop8n, List.take_left' (length_natToBytesBE _ _)]
    refine bytesToNatBE_natToBytesBE_of_lt ?_
    calc crc32 (tag ++ data) % 4294967296 < 4294967296 := Nat.mod_lt _ (by norm_num)
    _ = 256 ^ 4 := by norm_num
  have hlen : l.length = data.length + 12 + rest.length := by
    rw [hl]
    simp only [List.length_append, length_natToBytesBE, ht]
    omega
  have hdropfin : l.drop (12 + data.length) = rest := by
    have h12 : (12 + data.length) = 8 + data.length + 4 := by omega
    rw [h12, ← List.drop_drop, hdrop8n]
    exact List.drop_left' (length_natToBytesBE _ _)
  simp only [readChunk, hn, htag, hpay, hcrcv, hdropfin, hlen]
  have hfin : 12 + data.length ≤ data.length + 12 + rest.length := by omega
  simp [hfin]

theorem zlib_decompress_compress (l : List Nat) (h : l.length < 256 ^ 16) :
    zlib_decompress (zlib_compress l) = some l := by
  have hb16 : (natToBytesBE 16 l.length).length = 16 := length_natToBytesBE _ _
  have hshape : zlib_compress l =
      120 :: 218 :: (natToBytesBE 16 l.length ++ (l ++ natToBytesBE 4 (adler32 l))) := by
    simp [zlib_compress]
  rw [hshape]
  set r := natToBytesBE 16 l.length ++ (l ++ natToBytesBE 4 (adler32 l)) with hr
  have hL : bytesToNatBE (r.take 16) = l.length := by
    rw [hr, List.take_left' hb16]
    exact bytesToNatBE_natToBytesBE_of_lt h
  have hdrop16 : r.drop 16 = l ++ natToBytesBE 4 (adler32 l) := List.drop_left' hb16
  have hbody : (r.drop 16).take l.length = l := by
    rw [hdrop16]; exact List.take_left' rfl
  have had : (r.drop 16).drop l.length = natToBytesBE 4 (adler32 l) := by
    rw [hdrop16]; exact List.drop_left' rfl
  have hlen : (r.drop 16).length = l.length + 4 := by
    rw [hdrop16]; simp [length_natToBytesBE]
  simp only [zlib_decompress, hL, hbody, had, hlen]
  simp

theorem flatten_replicate_add (m n : Nat) (L : List Nat) :
    List.flatten (List.replicate (m + n) L) =
      List.flatten (List.replicate m L) ++ List.flatten (List.replicate n L) := by
  rw [List.replicate_add, List.flatten_append]

theorem flatten_replicate_flatten (m n : Nat) (L : List Nat) :
    List.flatten (List.replicate m (List.flatten (List.replicate n L))) =
      List.flatten (List.replicate (m * n) L) := by
  induction m with
  | zero => simp
  | succ m ih =>
    have hmn : (m + 1) * n = n + m * n := by ring
    rw [List.replicate_succ, List.flatten_cons, ih, hmn, flatten_replicate_add]

theorem defilterRows_flatten (w h : Nat) (R : List Nat) (hR : R.length = 4 * w) :
    defilterRows w h (List.flatten (List.replicate h (0 :: R))) =
      some (List.flatten (List.replicate h R)) := by
  induction h with
  | zero => simp [defilterRows]
  | succ h ih =>
    have hstep : List.flatten (List.replicate (h + 1) (0 :: R)) =
        0 :: (R ++ List.flatten (List.replicate h (0 :: R))) := by
      rw [List.replicate_succ, List.flatten_cons]
      rfl
    rw [hstep]
    have htake : (R ++ List.flatten (List.replicate h (0 :: R))).take (4 * w) = R :=
      List.take_left' hR
    have hdrop : (R ++ List.flatten (List.replicate h (0 :: R))).drop (4 * w) =
        List.flatten (List.replicate h (0 :: R)) := List.drop_left' hR
    have hle : 4 * w ≤ (R ++ List.flatten (List.replicate h (0 :: R))).length := by
      simp [List.length_append, hR]
    simp only [defilterRows, htake, hdrop, ih, if_pos hle]
    rw [List.replicate_succ, List.flatten_cons]
    rfl

theorem readIDATs_single (f : Nat) (idat acc : List Nat) (h : idat.length < 4294967296) :
    readIDATs (f + 2) (chunkBytes tagIDAT idat ++ chunkBytes tagIEND []) acc =
      some (acc ++ idat) := by
  have h1 : readChunk (chunkBytes tagIDAT idat ++ chunkBytes tagIEND []) =
      some ((tagIDAT, idat), chunkBytes tagIEND []) :=
    readChunk_chunkBytes _ _ _ rfl h
  have h2 : readChunk (chunkBytes tagIEND []) = some ((tagIEND, []), []) := by
    have h0 := readChunk_chunkBytes tagIEND [] [] rfl (by norm_num)
    simpa using h0
  have hne : tagIDAT ≠ tagIEND := by decide
  have e1 : ∀ (n : Nat) (l acc : List Nat), readIDATs (n + 1) l acc =
      (readChunk l).bind fun c =>
        if c.1.1 = tagIEND then
          if c.1.2 = ([] : List Nat) ∧ c.2 = ([] : List Nat) then some acc else none
        else if c.1.1 = tagIDAT then readIDATs n c.2 (acc ++ c.1.2)
        else none := fun n l acc => rfl
  rw [show f + 2 = (f + 1) + 1 from rfl, e1, h1, Option.some_bind]
  rw [if_neg hne, if_pos rfl, e1, h2, Option.some_bind]
  rw [if_pos rfl, if_pos ⟨rfl, rfl⟩]

theorem parseIHDR_ihdrPayload (s : Nat) (h1 : 0 < s) (h2 : s < 2147483648) :
    parseIHDR (ihdrPayload s) = some (s, s) := by
  have hs32 : s < 256 ^ 4 := by
    calc s < 2147483648 := h2
    _ ≤ 256 ^ 4 := by norm_num
  have hb4 : (natToBytesBE 4 s).length = 4 := length_natToBytesBE _ _
  have hshape : ihdrPayload s =
      natToBytesBE 4 s ++ (natToBytesBE 4 s ++ [8, 6, 0, 0, 0]) := by
    simp [ihdrPayload]
  have hdrop8 : (ihdrPayload s).drop 8 = [8, 6, 0, 0, 0] := by
    have h48 : (ihdrPayload s).drop 8 = ((ihdrPayload s).drop 4).drop 4 := by
      rw [List.drop_drop]
    rw [h48, hshape, List.drop_left' hb4]
    exact List.drop_left' hb4
  have htake4 : (ihdrPayload s).take 4 = natToBytesBE 4 s := by
    rw [hshape]; exact List.take_left' hb4
  have hdrop4take : ((ihdrPayload s).drop 4).take 4 = natToBytesBE 4 s := by
    rw [hshape, List.drop_left' hb4]
    exact List.take_left' hb4
  simp only [parseIHDR, length_ihdrPayload, hdrop8, htake4, hdrop4take,
    bytesToNatBE_natToBytesBE_of_lt hs32]
  have hcond : 0 < s ∧ s < 2147483648 ∧ 0 < s ∧ s < 2147483648 := ⟨h1, h2, h1, h2⟩
  simp [hcond, h1, h2]

theorem idat_length_lt (s : Nat) (h : s ≤ 16384) :
    (zlib_compress (rawStream s)).length < 4294967296 := by
  rw [length_zlib_compress, length_rawStream]
  have hle : 1 + 4 * s ≤ 65537 := by omega
  have hmul : s * (1 + 4 * s) ≤ 16384 * 65537 := Nat.mul_le_mul h hle
  omega

theorem encode_png_eq (s : Nat) (h : s ≤ 16384) :
    encode_png (s : Int) = some (encodedBytes s) := by
  have hcond : (0 : Int) ≤ (s : Int) ∧ (s : Int) < 4294967296 := by
    constructor
    · exact Int.natCast_nonneg s
    · exact_mod_cast (by omega : s < 4294967296)
  simp only [encode_png, if_pos hcond, Int.toNat_natCast, chunk]
  rw [if_pos (show (ihdrPayload s).length < 4294967296 by rw [length_ihdrPayload]; norm_num)]
  rw [if_pos (idat_length_lt s h)]
  rw [if_pos (show ([] : List Nat).length < 4294967296 by simp)]
  simp [encodedBytes]

theorem encode_png_some_inv (z : Int) (bs : List Nat) (h : encode_png z = some bs) :
    bs = encodedBytes z.toNat := by
  simp only [encode_png, chunk] at h
  split at h
  · split_ifs at h with h1 h2 h3 <;> simp_all [encodedBytes]
  · simp_all

theorem rawStream_length_lt (s : Nat) (h : s ≤ 16384) :
    (rawStream s).length < 256 ^ 16 := by
  rw [length_rawStream]
  have hle : 1 + 4 * s ≤ 65537 := by omega
  have hmul : s * (1 + 4 * s) ≤ 16384 * 65537 := Nat.mul_le_mul h hle
  calc s * (1 + 4 * s) ≤ 16384 * 65537 := hmul
  _ < 256 ^ 16 := by norm_num

theorem decode_encodedBytes (s : Nat) (h1 : 0 < s) (h2 : s ≤ 16384) :
    decode_png (encodedBytes s) =
      some (s, s, List.flatten (List.replicate (s * s) COLOR)) := by
  set idat := zlib_compress (rawStream s) with hidat
  have hidlt : idat.length < 4294967296 := idat_length_lt s h2
  have hsig : encodedBytes s = pngSignature ++
      (chunkBytes tagIHDR (ihdrPayload s) ++
        (chunkBytes tagIDAT idat ++ chunkBytes tagIEND [])) := by
    simp [encodedBytes, List.append_assoc]
  have htake8 : (encodedBytes s).take 8 = pngSignature := by
    rw [hsig]; exact List.take_left' rfl
  have hdrop8 : (encodedBytes s).drop 8 =
      chunkBytes tagIHDR (ihdrPayload s) ++
        (chunkBytes tagIDAT idat ++ chunkBytes tagIEND []) := by
    rw [hsig]; exact List.drop_left' rfl
  have hrc1 : readChunk ((encodedBytes s).drop 8) =
      some ((tagIHDR, ihdrPayload s),
        chunkBytes tagIDAT idat ++ chunkBytes tagIEND []) := by
    rw [hdrop8]
    exact readChunk_chunkBytes _ _ _ rfl (by rw [length_ihdrPayload]; norm_num)
  have hfuel : (chunkBytes tagIDAT idat ++ chunkBytes tagIEND []).length + 1 =
      (idat.length + 23) + 2 := by
    rw [List.length_append, length_chunkBytes tagIDAT idat rfl,
      length_chunkBytes tagIEND [] rfl]
    simp only [List.length_nil]
  have hidats : readIDATs
      ((chunkBytes tagIDAT idat ++ chunkBytes tagIEND []).length + 1)
      (chunkBytes tagIDAT idat ++ chunkBytes tagIEND []) [] = some idat := by
    rw [hfuel]
    have hsingle := readIDATs_single (idat.length + 23) idat [] hidlt
    simpa using hsingle
  have hinfl : zlib_decompress idat = some (rawStream s) := by
    rw [hidat]
    exact zlib_decompress_compress _ (rawStream_length_lt s h2)
  have hrowlen : (List.flatten (List.replicate s COLOR)).length = 4 * s := by
    rw [length_flatten_replicate]
    have hc : COLOR.length = 4 := rfl
    rw [hc]; ring
  have hdef : defilterRows s s (rawStream s) =
      some (List.flatten (List.replicate s (List.flatten (List.replicate s COLOR)))) := by
    rw [show rawStream s =
      List.flatten (List.replicate s (0 :: List.flatten (List.replicate s COLOR))) from rfl]
    exact defilterRows_flatten s s _ hrowlen
  have hIH : parseIHDR (ihdrPayload s) = some (s, s) :=
    parseIHDR_ihdrPayload s h1 (by omega)
  simp only [decode_png, htake8, hrc1, Option.some_bind]
  rw [if_pos trivial, if_pos trivial]
  simp only [hIH, Option.some_bind, hidats, hinfl, hdef]
  rw [flatten_replicate_flatten]

theorem drop_flatten_replicate (L : List Nat) (n k : Nat) (h : k ≤ n) :
    (List.flatten (List.replicate n L)).drop (L.length * k) =
      List.flatten (List.replicate (n - k) L) := by
  induction k generalizing n with
  | zero => simp
  | succ k ih =>
    match n, h with
    | m + 1, h =>
      rw [List.replicate_succ, List.flatten_cons]
      have harith : L.length * (k + 1) = L.length + L.length * k := by ring
      rw [harith, List.drop_append]
      rw [show m + 1 - (k + 1) = m - k from by omega]
      exact ih m (by omega)

theorem take_flatten_replicate (L : List Nat) (n : Nat) (h : 0 < n) :
    (List.flatten (List.replicate n L)).take L.length = L := by
  match n, h with
  | m + 1, _ =>
    rw [List.replicate_succ, List.flatten_cons]
    exact List.take_left _ _

theorem pixelAt_solid (s x y : Nat) (hx : x < s) (hy : y < s) :
    pixelAt (List.flatten (List.replicate (s * s) COLOR)) s x y = COLOR := by
  have hk : y * s + x < s * s := by
    have hys : (y + 1) * s ≤ s * s := Nat.mul_le_mul_right s hy
    have hlin : y * s + s = (y + 1) * s := by ring
    omega
  have hc4 : COLOR.length = 4 := rfl
  have hdrop : (List.flatten (List.replicate (s * s) COLOR)).drop (4 * (y * s + x)) =
      List.flatten (List.replicate (s * s - (y * s + x)) COLOR) := by
    rw [show 4 * (y * s + x) = COLOR.length * (y * s + x) from by rw [hc4]]
    exact drop_flatten_replicate COLOR (s * s) (y * s + x) (by omega)
  rw [pixelAt, hdrop]
  have htake := take_flatten_replicate COLOR (s * s - (y * s + x)) (by omega)
  rw [hc4] at htake
  exact htake

theorem runIcons_SIZES : runIcons SIZES =
    some [((iconsetPath "icon_16x16", encodedBytes 16), logLine "icon_16x16" 16),
          ((iconsetPath "icon_16x16@2x", encodedBytes 32), logLine "icon_16x16@2x" 32),
          ((iconsetPath "icon_32x32", encodedBytes 32), logLine "icon_32x32" 32),
          ((iconsetPath "icon_32x32@2x", encodedBytes 64), logLine "icon_32x32@2x" 64),
          ((iconsetPath "icon_128x128", encodedBytes 128), logLine "icon_128x128" 128),
          ((iconsetPath "icon_256x256", encodedBytes 256), logLine "icon_256x256" 256)] := by
  have e16 : encode_png 16 = some (encodedBytes 16) := by
    simpa using encode_png_eq 16 (by norm_num)
  have e32 : encode_png 32 = some (encodedBytes 32) := by
    simpa using encode_png_eq 32 (by norm_num)
  have e64 : encode_png 64 = some (encodedBytes 64) := by
    simpa using encode_png_eq 64 (by norm_num)
  have e128 : encode_png 128 = some (encodedBytes 128) := by
    simpa using encode_png_eq 128 (by norm_num)
  have e256 : encode_png 256 = some (encodedBytes 256) := by
    simpa using encode_png_eq 256 (by norm_num)
  simp [runIcons, SIZES, e16, e32, e64, e128, e256]

theorem take8_encodedBytes (s : Nat) : (encodedBytes s).take 8 = pngSignature := by
  have hsig : encodedBytes s = pngSignature ++
      (chunkBytes tagIHDR (ihdrPayload s) ++
        (chunkBytes tagIDAT (zlib_compress (rawStream s)) ++ chunkBytes tagIEND [])) := by
    simp [encodedBytes, List.append_assoc]
  rw [hsig]
  exact List.take_left' rfl

theorem drop8_encodedBytes (s : Nat) : (encodedBytes s).drop 8 =
    chunkBytes tagIHDR (ihdrPayload s) ++
      (chunkBytes tagIDAT (zlib_compress (rawStream s)) ++ chunkBytes tagIEND []) := by
  have hsig : encodedBytes s = pngSignature ++
      (chunkBytes tagIHDR (ihdrPayload s) ++
        (chunkBytes tagIDAT (zlib_compress (rawStream s)) ++ chunkBytes tagIEND [])) := by
    simp [encodedBytes, List.append_assoc]
  rw [hsig]
  exact List.drop_left' rfl

theorem ihdrPayload_take4 (s : Nat) : (ihdrPayload s).take 4 = natToBytesBE 4 s := by
  have hshape : ihdrPayload s =
      natToBytesBE 4 s ++ (natToBytesBE 4 s ++ [8, 6, 0, 0, 0]) := by
    simp [ihdrPayload]
  rw [hshape]
  exact List.take_left' (length_natToBytesBE _ _)

theorem ihdrPayload_drop4_take4 (s : Nat) :
    ((ihdrPayload s).drop 4).take 4 = natToBytesBE 4 s := by
  have hshape : ihdrPayload s =
      natToBytesBE 4 s ++ (natToBytesBE 4 s ++ [8, 6, 0, 0, 0]) := by
    simp [ihdrPayload]
  rw [hshape, List.drop_left' (length_natToBytesBE _ _)]
  exact List.take_left' (length_natToBytesBE _ _)

theorem ihdrPayload_drop8 (s : Nat) : (ihdrPayload s).drop 8 = [8, 6, 0, 0, 0] := by
  have hshape : ihdrPayload s =
      natToBytesBE 4 s ++ (natToBytesBE 4 s ++ [8, 6, 0, 0, 0]) := by
    simp [ihdrPayload]
  have h48 : (ihdrPayload s).drop 8 = ((ihdrPayload s).drop 4).drop 4 := by
    rw [List.drop_drop]
  rw [h48, hshape, List.drop_left' (length_natToBytesBE _ _)]
  exact List.drop_left' (length_natToBytesBE _ _)

theorem encode_png_some_bounds (z : Int) (bs : List Nat) (h : encode_png z = some bs) :
    0 ≤ z ∧ z < 4294967296 := by
  simp only [encode_png] at h
  split at h
  · assumption
  · simp_all

theorem encode_png_some_idat_lt (z : Int) (bs : List Nat) (h : encode_png z = some bs) :
    (zlib_compress (rawStream z.toNat)).length < 4294967296 := by
  simp only [encode_png, chunk] at h
  split at h
  · split_ifs at h with h1 h2 h3 <;> simp_all
  · simp_all

/-- C1: for every size in {16, 32, 64, 128, 256}, decoding the byte sequence
returned by encode(size) with a conformant PNG reader yields an image of
dimensions size x size in which every pixel (x, y) has RGBA value exactly
(0x3B, 0x82, 0xF6, 0xFF). -/
theorem C1_decoded_image_solid_color (s : Nat) (hs : s ∈ [16, 32, 64, 128, 256]) :
    ∃ bs, encode_png (s : Int) = some bs ∧
      decode_png bs = some (s, s, List.flatten (List.replicate (s * s) COLOR)) ∧
      ∀ x y, x < s → y < s →
        pixelAt (List.flatten (List.replicate (s * s) COLOR)) s x y = COLOR := by
  have hb : 0 < s ∧ s ≤ 16384 := by
    simp only [List.mem_cons, List.not_mem_nil, or_false] at hs
    rcases hs with h | h | h | h | h <;> subst h <;> norm_num
  exact ⟨encodedBytes s, encode_png_eq s hb.2, decode_encodedBytes s hb.1 hb.2,
    fun x y hx hy => pixelAt_solid s x y hx hy⟩

/-- Witness for C1 at size 16. -/
theorem C1_witness :
    ∃ bs, encode_png ((16 : Nat) : Int) = some bs ∧
      decode_png bs = some (16, 16, List.flatten (List.replicate (16 * 16) COLOR)) ∧
      ∀ x y, x < 16 → y < 16 →
        pixelAt (List.flatten (List.replicate (16 * 16) COLOR)) 16 x y = COLOR :=
  C1_decoded_image_solid_color 16 (by decide)

/-- C2: the full generation workflow writes exactly 6 files, at the fixed
directory's paths icon_16x16.png, icon_16x16@2x.png, icon_32x32.png,
icon_32x32@2x.png, icon_128x128.png, icon_256x256.png, and the bytes written
for each entry are the encoder's output at its table size (16, 32, 32, 64,
128, 256 respectively). -/
theorem C2_six_files :
    ∃ l, runIcons SIZES = some l ∧ l.length = 6 ∧
      l.map (fun e => e.1.1) =
        ["client/push-package/icon.iconset/icon_16x16.png",
         "client/push-package/icon.iconset/icon_16x16@2x.png",
         "client/push-package/icon.iconset/icon_32x32.png",
         "client/push-package/icon.iconset/icon_32x32@2x.png",
         "client/push-package/icon.iconset/icon_128x128.png",
         "client/push-package/icon.iconset/icon_256x256.png"] ∧
      List.Forall₂
        (fun e p => e.1.1 = iconsetPath p.1 ∧ encode_png (p.2 : Int) = some e.1.2)
        l SIZES := by
  refine ⟨_, runIcons_SIZES, rfl, by decide, ?_⟩
  exact List.Forall₂.cons ⟨rfl, encode_png_eq 16 (by norm_num)⟩
    (List.Forall₂.cons ⟨rfl, encode_png_eq 32 (by norm_num)⟩
    (List.Forall₂.cons ⟨rfl, encode_png_eq 32 (by norm_num)⟩
    (List.Forall₂.cons ⟨rfl, encode_png_eq 64 (by norm_num)⟩
    (List.Forall₂.cons ⟨rfl, encode_png_eq 128 (by norm_num)⟩
    (List.Forall₂.cons ⟨rfl, encode_png_eq 256 (by norm_num)⟩
    List.Forall₂.nil)))))

/-- C3: for every positive size, the byte sequence returned by encode begins
with the 8-byte PNG signature and is exactly the signature followed by the
header chunk, the data chunk and the empty terminator chunk, in that fixed
order; for sizes up to 16384 encode indeed returns those bytes. -/
theorem C3_signature_then_chunks (s : Nat) (h : 0 < s) :
    (∀ bs, encode_png (s : Int) = some bs →
      bs = pngSignature ++ chunkBytes tagIHDR (ihdrPayload s) ++
        chunkBytes tagIDAT (zlib_compress (rawStream s)) ++ chunkBytes tagIEND [] ∧
      bs.take 8 = pngSignature) ∧
    (s ≤ 16384 → encode_png (s : Int) = some (encodedBytes s)) := by
  constructor
  · intro bs hbs
    have hb := encode_png_some_inv _ _ hbs
    rw [Int.toNat_natCast] at hb
    subst hb
    exact ⟨rfl, take8_encodedBytes s⟩
  · exact fun h2 => encode_png_eq s h2

/-- Witness for C3 at size 16. -/
theorem C3_witness : encode_png ((16 : Nat) : Int) = some (encodedBytes 16) :=
  (C3_signature_then_chunks 16 (by decide)).2 (by norm_num)

/-- C4: for every positive size at which encode returns, the header chunk of
the output parses with tag IHDR and the 13-byte payload whose two 4-byte
big-endian fields decode back to width = size and height = size, followed by
bit depth 8, color type 6, and compression, filter, interlace all 0. -/
theorem C4_header_fields (s : Nat) (h : 0 < s) :
    ∀ bs, encode_png (s : Int) = some bs →
      (∃ rest, readChunk (bs.drop 8) = some ((tagIHDR, ihdrPayload s), rest)) ∧
      ihdrPayload s = natToBytesBE 4 s ++ natToBytesBE 4 s ++ [8, 6, 0, 0, 0] ∧
      bytesToNatBE ((ihdrPayload s).take 4) = s ∧
      bytesToNatBE (((ihdrPayload s).drop 4).take 4) = s ∧
      (ihdrPayload s).drop 8 = [8, 6, 0, 0, 0] := by
  intro bs hbs
  have hs32 : s < 256 ^ 4 := by
    have hbound := (encode_png_some_bounds _ _ hbs).2
    have hn : s < 4294967296 := by exact_mod_cast hbound
    calc s < 4294967296 := hn
    _ = 256 ^ 4 := by norm_num
  have hb := encode_png_some_inv _ _ hbs
  rw [Int.toNat_natCast] at hb
  subst hb
  refine ⟨⟨chunkBytes tagIDAT (zlib_compress (rawStream s)) ++ chunkBytes tagIEND [], ?_⟩,
    rfl, ?_, ?_, ihdrPayload_drop8 s⟩
  · rw [drop8_encodedBytes]
    exact readChunk_chunkBytes _ _ _ rfl (by rw [length_ihdrPayload]; norm_num)
  · rw [ihdrPayload_take4]
    exact bytesToNatBE_natToBytesBE_of_lt hs32
  · rw [ihdrPayload_drop4_take4]
    exact bytesToNatBE_natToBytesBE_of_lt hs32

/-- Witness for C4 at size 16. -/
theorem C4_witness :
    ∃ rest, readChunk ((encodedBytes 16).drop 8) =
      some ((tagIHDR, ihdrPayload 16), rest) :=
  ((C4_header_fields 16 (by decide)) (encodedBytes 16)
    (encode_png_eq 16 (by norm_num))).1

/-- C5: for every positive size at which encode returns, the data chunk of the
output parses with tag IDAT and payload equal to the compressor applied to the
raw stream; the raw stream consists, for each of size rows, of a single 0x00
filter byte followed by size repetitions of the 4-byte color, and its length is
size * (1 + 4 * size). -/
theorem C5_data_chunk (s : Nat) (h : 0 < s) :
    (∀ bs, encode_png (s : Int) = some bs →
      ∃ rest, readChunk (bs.drop 8) = some ((tagIHDR, ihdrPayload s), rest) ∧
        readChunk rest =
          some ((tagIDAT, zlib_compress (rawStream s)), chunkBytes tagIEND [])) ∧
    rawStream s =
      List.flatten (List.replicate s (0x00 :: List.flatten (List.replicate s COLOR))) ∧
    (rawStream s).length = s * (1 + 4 * s) := by
  refine ⟨?_, rfl, length_rawStream s⟩
  intro bs hbs
  have hidat := encode_png_some_idat_lt _ _ hbs
  rw [Int.toNat_natCast] at hidat
  have hb := encode_png_some_inv _ _ hbs
  rw [Int.toNat_natCast] at hb
  subst hb
  refine ⟨chunkBytes tagIDAT (zlib_compress (rawStream s)) ++ chunkBytes tagIEND [], ?_, ?_⟩
  · rw [drop8_encodedBytes]
    exact readChunk_chunkBytes _ _ _ rfl (by rw [length_ihdrPayload]; norm_num)
  · exact readChunk_chunkBytes _ _ _ rfl hidat

/-- Witness for C5 at size 16. -/
theorem C5_witness :
    ∃ rest, readChunk ((encodedBytes 16).drop 8) =
      some ((tagIHDR, ihdrPayload 16), rest) ∧
      readChunk rest =
        some ((tagIDAT, zlib_compress (rawStream 16)), chunkBytes tagIEND []) :=
  (C5_data_chunk 16 (by decide)).1 (encodedBytes 16) (encode_png_eq 16 (by norm_num))

/-- C6: every chunk is wrapped identically: a 4-byte big-endian payload
length, the 4-byte ASCII tag, the payload, then a 4-byte big-endian CRC-32
computed over tag ++ payload; the wrapped chunk is payload length + 12 bytes. -/
theorem C6_chunk_layout (tag data : List Nat) (ht : tag.length = 4)
    (hd : data.length < 4294967296) :
    chunk tag data = some (natToBytesBE 4 data.length ++ tag ++ data ++
      natToBytesBE 4 (crc32 (tag ++ data) % 4294967296)) ∧
    (chunkBytes tag data).length = data.length + 12 :=
  ⟨by simp [chunk, hd, chunkBytes], length_chunkBytes tag data ht⟩

/-- Witness for C6 on the terminator chunk (tag IEND, empty payload). -/
theorem C6_witness :
    chunk tagIEND [] = some (natToBytesBE 4 ([] : List Nat).length ++ tagIEND ++ [] ++
      natToBytesBE 4 (crc32 (tagIEND ++ []) % 4294967296)) ∧
    (chunkBytes tagIEND []).length = ([] : List Nat).length + 12 :=
  C6_chunk_layout tagIEND [] rfl (by norm_num)

/-- C7: encode is deterministic: it is a pure function of the size argument,
so equal sizes give byte-identical output, and its output factors through the
compiled-in COLOR constant passed as an explicit configuration value. -/
theorem C7_deterministic (s t : Int) (h : s = t) :
    encode_png s = encode_png t ∧ encode_png s = encode_core COLOR s := by
  subst h
  exact ⟨rfl, rfl⟩

/-- Witness for C7 at size 16. -/
theorem C7_witness :
    encode_png 16 = encode_png 16 ∧ encode_png 16 = encode_core COLOR 16 :=
  C7_deterministic 16 16 rfl

set_option maxRecDepth 1000000 in
/-- C8 counterexample: at the non-positive size 0, encode does not fail
loudly; it returns a byte sequence, and a conformant reader rejects those
bytes (the header declares the invalid dimensions 0 x 0). -/
theorem C8_counterexample :
    (encode_png 0).isSome = true ∧ decode_png ((encode_png 0).getD []) = none := by
  decide

set_option maxRecDepth 1000000 in
/-- C8 (amended): for every negative size, encode fails loudly (the header
pack raises struct.error); at size 0, however, it silently returns a byte
sequence that a conformant reader rejects. -/
theorem C8_amended_nonpositive (size : Int) (h : size < 0) :
    encode_png size = none ∧
    ∃ bs, encode_png 0 = some bs ∧ decode_png bs = none := by
  constructor
  · simp only [encode_png]
    rw [if_neg (by omega)]
  · refine ⟨encodedBytes 0, by simpa using encode_png_eq 0 (by norm_num), by decide⟩

/-- Witness for C8 at size -1. -/
theorem C8_witness :
    encode_png (-1) = none ∧
    ∃ bs, encode_png 0 = some bs ∧ decode_png bs = none :=
  C8_amended_nonpositive (-1) (by norm_num)

/-- C9 counterexample: size 2^21 = 2097152 lies in [0, 2^32), yet encode
raises rather than returning: the compressed data stream over the
2097152 * (1 + 4 * 2097152)-byte raw stream is too long for its length to be
packed into the chunk's 4-byte length field. -/
theorem C9_counterexample :
    ((0 : Int) ≤ 2097152 ∧ (2097152 : Int) < 4294967296) ∧
      encode_png 2097152 = none := by
  refine ⟨by norm_num, ?_⟩
  have htn : (2097152 : Int).toNat = 2097152 := rfl
  have hge : ¬ (zlib_compress (rawStream 2097152)).length < 4294967296 := by
    rw [length_zlib_compress, length_rawStream]
    norm_num
  simp only [encode_png, chunk, htn]
  rw [if_pos (by norm_num)]
  rw [if_pos (show (ihdrPayload 2097152).length < 4294967296 by
    rw [length_ihdrPayload]; norm_num)]
  rw [if_neg hge]
  simp

/-- C9 (amended): encode succeeds and returns the assembled bytes for every
size up to 16384 (not for every size below 2^32: see the counterexample); in
particular encode(0) succeeds, its header fields decode to width 0 and height
0, and its data chunk payload is the compression of the empty raw stream. -/
theorem C9_amended_success (s : Nat) (h : s ≤ 16384) :
    encode_png (s : Int) = some (encodedBytes s) ∧
    encode_png 0 = some (encodedBytes 0) ∧
    rawStream 0 = [] ∧
    encodedBytes 0 = pngSignature ++ chunkBytes tagIHDR (ihdrPayload 0) ++
      chunkBytes tagIDAT (zlib_compress []) ++ chunkBytes tagIEND [] ∧
    bytesToNatBE ((ihdrPayload 0).take 4) = 0 ∧
    bytesToNatBE (((ihdrPayload 0).drop 4).take 4) = 0 := by
  refine ⟨encode_png_eq s h, by simpa using encode_png_eq 0 (by norm_num), rfl, rfl,
    ?_, ?_⟩
  · rw [ihdrPayload_take4]
    decide
  · rw [ihdrPayload_drop4_take4]
    decide

/-- Witness for C9 at size 16. -/
theorem C9_witness :
    encode_png ((16 : Nat) : Int) = some (encodedBytes 16) ∧
    encode_png 0 = some (encodedBytes 0) ∧
    rawStream 0 = [] ∧
    encodedBytes 0 = pngSignature ++ chunkBytes tagIHDR (ihdrPayload 0) ++
      chunkBytes tagIDAT (zlib_compress []) ++ chunkBytes tagIEND [] ∧
    bytesToNatBE ((ihdrPayload 0).take 4) = 0 ∧
    bytesToNatBE (((ihdrPayload 0).drop 4).take 4) = 0 :=
  C9_amended_success 16 (by norm_num)

/-- C10: the workflow iterates the name-to-size table in its fixed insertion
order: the 6 file paths and the 6 console status lines are produced in
exactly the order icon_16x16, icon_16x16@2x, icon_32x32, icon_32x32@2x,
icon_128x128, icon_256x256. -/
theorem C10_iteration_order :
    ∃ l, runIcons SIZES = some l ∧
      l.map (fun e => e.1.1) =
        ["client/push-package/icon.iconset/icon_16x16.png",
         "client/push-package/icon.iconset/icon_16x16@2x.png",
         "client/push-package/icon.iconset/icon_32x32.png",
         "client/push-package/icon.iconset/icon_32x32@2x.png",
         "client/push-package/icon.iconset/icon_128x128.png",
         "client/push-package/icon.iconset/icon_256x256.png"] ∧
      l.map (fun e => e.2) =
        ["Wrote client/push-package/icon.iconset/icon_16x16.png (16x16)",
         "Wrote client/push-package/icon.iconset/icon_16x16@2x.png (32x32)",
         "Wrote client/push-package/icon.iconset/icon_32x32.png (32x32)",
         "Wrote client/push-package/icon.iconset/icon_32x32@2x.png (64x64)",
         "Wrote client/push-package/icon.iconset/icon_128x128.png (128x128)",
         "Wrote client/push-package/icon.iconset/icon_256x256.png (256x256)"] := by
  exact ⟨_, runIcons_SIZES, by decide, by decide⟩

end PngGen
